import Mathlib

/-!
Shallow embedding of the string-processing and state-tracking kernels of the
ADB-Manager application (a PySide6 GUI around the `adb` binary), together with
theorems checking its specification.  Strings are modelled as `List Char`;
Python's text primitives (`str.strip`, `str.split`, `str.find`, slicing,
`str.lower`, substring tests) are reproduced as executable functions below, and
each embedded operation follows the corresponding Python function line by line.
-/

namespace ADBM

/-- Whitespace test backing Python's `str.strip` / `str.split` (ASCII range). -/
def pyIsSpace (c : Char) : Bool :=
  c == ' ' || c == '\t' || c == '\n' || c == '\r' || c == '\x0b' || c == '\x0c'

/-- Python `str.lstrip()` on the default (whitespace) character set. -/
def pyLstrip (l : List Char) : List Char :=
  l.dropWhile pyIsSpace

/-- Drop the longest suffix whose characters satisfy `p`. -/
def rstripP (p : Char → Bool) (l : List Char) : List Char :=
  (l.reverse.dropWhile p).reverse

/-- Python `str.rstrip()` on the default (whitespace) character set. -/
def pyRstrip (l : List Char) : List Char :=
  rstripP pyIsSpace l

/-- Python `str.strip()`. -/
def pyStrip (l : List Char) : List Char :=
  pyLstrip (pyRstrip l)

/-- Index of the first element satisfying `p`, if any. -/
def findIdxA (p : Char → Bool) : List Char → Option Nat
  | [] => none
  | a :: l => if p a then some 0 else (findIdxA p l).map (· + 1)

/-- Python `str.find(c)` for a single-character needle: index of the first
occurrence, `-1` when absent. -/
def pyFind (l : List Char) (c : Char) : Int :=
  match findIdxA (· == c) l with
  | some n => (n : Int)
  | none => -1

/-- Python `str.find(c, start)`: first occurrence at index `≥ start`, else `-1`. -/
def pyFindFrom (l : List Char) (c : Char) (start : Nat) : Int :=
  match findIdxA (· == c) (l.drop start) with
  | some n => ((start + n : Nat) : Int)
  | none => -1

/-- Python slice `l[a:b]` for nonnegative bounds. -/
def pySlice (l : List Char) (a b : Nat) : List Char :=
  (l.take b).drop a

/-- Python `str.lower()` (ASCII behaviour). -/
def pyLower (l : List Char) : List Char :=
  l.map Char.toLower

/-- Python `needle in hay` substring test. -/
def pyContains (needle hay : List Char) : Bool :=
  decide (needle <:+: hay)

/-- Fuelled worker for Python's whitespace `str.split(None, maxsplit)`;
`none` means an unbounded maxsplit. -/
def pySplitWsF : Nat → List Char → Option Nat → List (List Char)
  | 0, _, _ => []
  | fuel + 1, l, m =>
    let l1 := l.dropWhile pyIsSpace
    if l1 = [] then []
    else
      match m with
      | some 0 => [l1]
      | _ =>
        let tok := l1.takeWhile (fun c => !pyIsSpace c)
        let rest := l1.dropWhile (fun c => !pyIsSpace c)
        tok :: pySplitWsF fuel rest (m.map (· - 1))

/-- Python `str.split(None, maxsplit)` (whitespace splitting, no empty parts). -/
def pySplitWs (l : List Char) (m : Option Nat) : List (List Char) :=
  pySplitWsF (l.length + 1) l m

/-- Python `str.split(sep)` for a single-character separator `c`. -/
def splitOnChar (c : Char) : List Char → List (List Char)
  | [] => [[]]
  | x :: xs =>
    match splitOnChar c xs with
    | [] => if x = c then [[], []] else [[x]]
    | y :: ys => if x = c then [] :: y :: ys else (x :: y) :: ys

/-- Python `c.join(parts)` for a single-character separator. -/
def intercalateChar (c : Char) : List (List Char) → List Char
  | [] => []
  | [a] => a
  | a :: b :: rest => a ++ c :: intercalateChar c (b :: rest)

/-- Python `str.split(sep, 1)` for a one-character separator: the pieces before
and after the first occurrence (the whole string when absent). -/
def splitFirst (c : Char) (l : List Char) : List Char × List Char :=
  (l.takeWhile (· ≠ c), (l.dropWhile (· ≠ c)).drop 1)

/-- A parsed logcat record (`src/core/logcat_streamer.py`): the dictionary with
keys `timestamp`, `pid`, `tid`, `level`, `tag`, `message`. -/
structure LogEntry where
  timestamp : List Char
  pid : List Char
  tid : List Char
  level : List Char
  tag : List Char
  message : List Char
deriving Repr, DecidableEq

/-- `LogcatStreamer._parse_threadtime`: fallback parser for `-v threadtime`
formatted lines. -/
def parse_threadtime (line : List Char) : Option LogEntry :=
  if line.length < 30 then none
  else
    let timestamp := line.take 18
    let rest := pyStrip (line.drop 18)
    let parts := pySplitWs rest (some 4)
    if parts.length < 5 then none
    else
      let pid := parts.getD 0 []
      let tid := parts.getD 1 []
      let level := parts.getD 2 []
      let tagAndMsg := parts.getD 4 []
      let tm :=
        if (':' : Char) ∈ tagAndMsg then splitFirst ':' tagAndMsg
        else ([], tagAndMsg)
      some ⟨timestamp, pid, tid, level, pyStrip tm.1, pyStrip tm.2⟩

/-- `LogcatStreamer._parse_log_line`: tokenizer for `adb logcat -v time` lines
of the shape `MM-DD HH:MM:SS.mmm LEVEL/TAG( PID): MESSAGE`. -/
def parse_log_line (line : List Char) : Option LogEntry :=
  if line.length < 20 then none
  else
    let timestamp := pyStrip (line.take 18)
    let rest := pyStrip (line.drop 18)
    if rest = [] then none
    else
      let level := rest.headD 'I'
      if rest.length < 2 ∨ rest.getD 1 ' ' ≠ '/' then parse_threadtime line
      else
        let ras := rest.drop 2
        let parenPos := pyFind ras '('
        let colonPos := pyFind ras ':'
        if parenPos ≠ -1 ∧ parenPos < colonPos then
          let tag := pyStrip (ras.take parenPos.toNat)
          let parenEnd := pyFindFrom ras ')' parenPos.toNat
          if parenEnd ≠ -1 then
            let pid := pyStrip (pySlice ras (parenPos.toNat + 1) parenEnd.toNat)
            let messageStart := pyFindFrom ras ':' parenEnd.toNat
            let message :=
              if messageStart ≠ -1 then pyStrip (ras.drop (messageStart.toNat + 1))
              else pyStrip (ras.drop (parenEnd.toNat + 1))
            some ⟨timestamp, pid, [], [level], tag, message⟩
          else
            some ⟨timestamp, [], [], [level], tag, pyStrip (ras.drop parenPos.toNat)⟩
        else if colonPos ≠ -1 then
          some ⟨timestamp, [], [], [level], pyStrip (ras.take colonPos.toNat),
                pyStrip (ras.drop (colonPos.toNat + 1))⟩
        else
          some ⟨timestamp, [], [], [level], pyStrip ras, []⟩

/-- Python `l.startswith(p)`. -/
def pyStartsWith (p l : List Char) : Bool :=
  decide (p <+: l)

/-- The distinct exception types raised by `ADBWrapper._check_errors`
(`src/utils/adb_wrapper.py`). -/
inductive ADBCheckFailure
  | deviceNotFound
  | deviceUnauthorized
  | multipleDevices
deriving Repr, DecidableEq

/-- `ADBWrapper._check_errors`: substring checks on the lowercased stderr.
`some e` models raising exception `e`; `none` models returning normally. -/
def check_errors (stderr : List Char) : Option ADBCheckFailure :=
  let stderrLower := pyLower stderr
  if pyContains "no devices".toList stderrLower ||
      pyContains "device not found".toList stderrLower then
    some .deviceNotFound
  else if pyContains "unauthorized".toList stderrLower then
    some .deviceUnauthorized
  else if pyContains "more than one device".toList stderrLower then
    some .multipleDevices
  else
    none

/-- `ADBWrapper.pair_wireless`: the body awaits `execute ["pair", ...]` inside a
`try`. The argument is that invocation's outcome: `.ok stdout` or `.error e`
for any raised exception. -/
def pair_wireless {ε : Type} (r : Except ε (List Char)) : Bool :=
  match r with
  | .error _ => false
  | .ok stdout => pyContains "successfully paired".toList (pyLower stdout)

/-- `ADBWrapper.connect_wireless`, with the `execute ["connect", ...]` outcome
as argument. -/
def connect_wireless {ε : Type} (r : Except ε (List Char)) : Bool :=
  match r with
  | .error _ => false
  | .ok stdout => pyContains "connected".toList (pyLower stdout)

/-- `ADBWrapper.disconnect_wireless`, with the `execute` outcome as argument. -/
def disconnect_wireless {ε : Type} (r : Except ε (List Char)) : Bool :=
  match r with
  | .error _ => false
  | .ok _ => true

/-- `ADBWrapper.push_file`, with the `execute ["push", ...]` outcome as
argument (the stdout is unused by the source). -/
def push_file {ε : Type} (r : Except ε (List Char)) : Bool :=
  match r with
  | .error _ => false
  | .ok _ => true

/-- `ADBWrapper.pull_file`, with the `execute ["pull", ...]` outcome. -/
def pull_file {ε : Type} (r : Except ε (List Char)) : Bool :=
  match r with
  | .error _ => false
  | .ok _ => true

/-- `ADBWrapper.install_apk`, with the `execute ["install", ...]` outcome. -/
def install_apk {ε : Type} (r : Except ε (List Char)) : Bool :=
  match r with
  | .error _ => false
  | .ok stdout => pyContains "Success".toList stdout

/-- `ADBWrapper.uninstall_package`, with the `execute ["uninstall", ...]`
outcome. -/
def uninstall_package {ε : Type} (r : Except ε (List Char)) : Bool :=
  match r with
  | .error _ => false
  | .ok stdout => pyContains "Success".toList stdout

/-- A Python `dict[str, str]` modelled as an ordered association list. -/
abbrev Dict : Type := List (List Char × List Char)

/-- Python `l.endswith(p)`. -/
def pyEndsWith (p l : List Char) : Bool :=
  decide (p <:+ l)

/-- `d[k] = v` on a Python dict: overwrite in place when the key exists,
append otherwise. -/
def dictInsert (d : Dict) (k v : List Char) : Dict :=
  match d with
  | [] => [(k, v)]
  | (k0, v0) :: rest =>
    if k0 = k then (k0, v) :: rest else (k0, v0) :: dictInsert rest k v

/-- `d.get(k)` on a Python dict. -/
def dictGet (d : Dict) (k : List Char) : Option (List Char) :=
  match d with
  | [] => none
  | (k0, v0) :: rest => if k0 = k then some v0 else dictGet rest k

/-- `ADBWrapper.get_devices` applied to the decoded stdout of
`adb devices -l`: skip the header line, split each line on whitespace, and
build `{'serial': parts[0], 'state': parts[1], **info}` where `info` collects
the later `key:value` fields. -/
def get_devices (stdout : List Char) : List Dict :=
  let lines := splitOnChar '\n' (pyStrip stdout)
  (lines.drop 1).filterMap (fun line =>
    if pyStrip line = [] then none
    else
      let parts := pySplitWs line none
      if parts.length < 2 then none
      else
        let serial := parts.getD 0 []
        let state := parts.getD 1 []
        let info := (parts.drop 2).foldl
          (fun d part =>
            if (':' : Char) ∈ part then
              dictInsert d (splitFirst ':' part).1 (splitFirst ':' part).2
            else d)
          ([] : Dict)
        let base : Dict := [("serial".toList, serial), ("state".toList, state)]
        some (info.foldl (fun d kv => dictInsert d kv.1 kv.2) base))

/-- The later whitespace fields of a `devices -l` line that contain a colon,
split at the first colon, in order. -/
def colonFields (parts : List (List Char)) : Dict :=
  (parts.drop 2).filterMap (fun part =>
    if (':' : Char) ∈ part then some (splitFirst ':' part) else none)

/-- The records described by claim C4, built verbatim from its words: skip the
first line and every line with fewer than two whitespace-separated fields;
`serial` is the first field, `state` the second, and one key/value entry is
appended for each later field containing a colon. -/
def get_devices_claim (stdout : List Char) : List Dict :=
  ((splitOnChar '\n' (pyStrip stdout)).drop 1).filterMap (fun line =>
    let parts := pySplitWs line none
    if parts.length < 2 then none
    else some ([("serial".toList, parts.getD 0 []),
                ("state".toList, parts.getD 1 [])] ++ colonFields parts))

/-- The `Device` dataclass (`src/core/device_manager.py`). -/
structure Device where
  serial : List Char
  state : List Char
  model : Option (List Char) := none
  manufacturer : Option (List Char) := none
  android_version : Option (List Char) := none
  sdk_version : Option (List Char) := none
  cpu_abi : Option (List Char) := none
deriving Repr, DecidableEq

/-- `DeviceManager.scan_devices`. The whole body runs in a `try` whose
`except` returns `[]`. `r` is the outcome of `self.adb.get_devices()` given as
the decoded `adb devices -l` stdout (or any raised exception); `getInfo` gives
the outcome of `self.adb.get_device_info(serial)` (a properties dict, or an
exception, which the inner `try` swallows). -/
def scan_devices {ε : Type} (r : Except ε (List Char))
    (getInfo : List Char → Except ε Dict) : List Device :=
  match r with
  | .error _ => []
  | .ok stdout =>
    (get_devices stdout).map (fun devInfo =>
      let serial := (dictGet devInfo "serial".toList).getD []
      let state := (dictGet devInfo "state".toList).getD []
      let d : Device :=
        { serial := serial, state := state,
          model := dictGet devInfo "model".toList }
      if state = "device".toList then
        match getInfo serial with
        | .error _ => d
        | .ok props =>
          { d with
            model := match dictGet props "ro.product.model".toList with
              | some v => some v
              | none => d.model,
            manufacturer := dictGet props "ro.product.manufacturer".toList,
            android_version := dictGet props "ro.build.version.release".toList,
            sdk_version := dictGet props "ro.build.version.sdk".toList,
            cpu_abi := dictGet props "ro.product.cpu.abi".toList }
      else d)

/-- `str.isdigit` restricted to ASCII digits, as produced by `ls -la`. -/
def pyIsDigits (l : List Char) : Bool :=
  !l.isEmpty && l.all Char.isDigit

/-- Python `int(s)` on a digit string. -/
def natOfDigits (l : List Char) : Nat :=
  l.foldl (fun n c => 10 * n + (c.toNat - 48)) 0

/-- The `FileInfo` dataclass (`src/core/file_manager.py`).  `size` is declared
an `int` but `display_size` assigns `self.size /= 1024.0`, so it is modelled as
a rational (exact where Python's binary floats are exact, in particular on the
power-of-two inputs evaluated in the theorems below). -/
structure FileInfo where
  name : List Char
  path : List Char
  is_directory : Bool
  size : ℚ := 0
  permissions : List Char := []
  modified_time : List Char := []
deriving Repr, DecidableEq

/-- `FileManager.list_directory`. The whole body runs in a `try` whose
`except` returns `[]`; `r` is the outcome of `self.adb.shell("ls -la ...")`. -/
def list_directory {ε : Type} (r : Except ε (List Char)) (path : List Char) :
    List FileInfo :=
  match r with
  | .error _ => []
  | .ok output =>
    let dirPath := if pyEndsWith ['/'] path then path else path ++ ['/']
    (splitOnChar '\n' (pyStrip output)).filterMap (fun rawLine =>
      let line := pyStrip rawLine
      if line = [] || pyStartsWith "total".toList line then none
      else
        let parts := pySplitWs line (some 7)
        if parts.length < 8 then none
        else
          let permissions := parts.getD 0 []
          let sizeStr := parts.getD 4 []
          let name := parts.getD 7 []
          if name = ".".toList ∨ name = "..".toList then none
          else
            let isDir := pyStartsWith ['d'] permissions
            let size : ℚ :=
              if isDir then 0
              else if pyIsDigits sizeStr then (natOfDigits sizeStr : ℚ) else 0
            some { name := name, path := dirPath ++ name, is_directory := isDir,
                   size := size, permissions := permissions })

/-- What `FileInfo.display_size` renders: `<DIR>` for directories, otherwise
the value and unit interpolated into `f"{size:.1f} {unit}"`. -/
inductive SizeDisplay
  | dir
  | num (value : ℚ) (unit : List Char)
deriving Repr, DecidableEq

/-- The `for unit in ['B', 'KB', 'MB', 'GB']` loop of `display_size`: returns
the value of `self.size` when the loop exits (the loop body assigns
`self.size /= 1024.0`) together with the rendered value and unit. -/
def displaySizeLoop : ℚ → List (List Char) → ℚ × SizeDisplay
  | size, [] => (size, .num size "TB".toList)
  | size, u :: us =>
    if size < 1024 then (size, .num size u)
    else displaySizeLoop (size / 1024) us

/-- `FileInfo.display_size`. The Python property reads and writes `self`, so
the model returns both the rendered result and the record as it stands after
the property returns. -/
def display_size (f : FileInfo) : SizeDisplay × FileInfo :=
  if f.is_directory then (.dir, f)
  else
    let r := displaySizeLoop f.size ["B".toList, "KB".toList, "MB".toList, "GB".toList]
    (r.2, { f with size := r.1 })

/-- `TerminalWidget._update_path_from_cd` (`src/gui/widgets/terminal_widget.py`):
given the tracked `self.current_path` and the typed command, the tracked path
after the call. -/
def update_path_from_cd (currentPath : List Char) (command : List Char) :
    List Char :=
  let parts := pySplitWs command (some 1)
  if parts.length < 2 then "/data/data".toList
  else
    let newPath := pyStrip (parts.getD 1 [])
    if newPath = "~".toList ∨ newPath = [] then "/data/data".toList
    else if newPath = "/".toList then "/".toList
    else if pyStartsWith "/".toList newPath then newPath
    else if newPath = "..".toList then
      if currentPath ≠ "/".toList then
        let joined := intercalateChar '/'
          ((splitOnChar '/' (rstripP (· == '/') currentPath)).dropLast)
        if joined = [] then "/".toList else joined
      else currentPath
    else
      if currentPath = "/".toList then '/' :: newPath
      else rstripP (· == '/') currentPath ++ '/' :: newPath

/-- `TerminalWidget._on_shell_started` sets `self.current_path = "/"`. -/
def shellStartPath : List Char := "/".toList

/-- State of the `async_helper` module-global busy flag together with the
wrapped tasks created by `safe_ensure_future`: `pending` counts tasks handed to
`asyncio.ensure_future` whose `wrapped` body has not yet started, `running`
counts bodies between their first statement (`_async_busy = True`) and the end
of their `finally` clause. -/
structure AsyncState where
  busy : Bool
  pending : Nat
  running : Nat
deriving Repr, DecidableEq

/-- How the coroutine awaited inside `wrapped` finishes; the `finally` clause
runs in every case. -/
inductive TaskOutcome
  | returns
  | raises
  | cancelled
deriving Repr, DecidableEq

/-- Loop events relevant to `safe_ensure_future`: a synchronous call to
`safe_ensure_future`, the event loop starting a scheduled wrapped task, and a
running wrapped task finishing. -/
inductive AsyncEvent
  | call
  | start
  | finish (o : TaskOutcome)
deriving Repr, DecidableEq

/-- Whether `safe_ensure_future` returns a task (`true`) or closes the
submitted coroutine and returns `None` (`false`) when called in state `s`. -/
def callSchedules (s : AsyncState) : Bool :=
  !s.busy

/-- One step of the loop. `.call` when busy drops the coroutine and leaves the
state unchanged; otherwise it schedules a wrapped task. `.start` requires a
pending task: its first statement sets the busy flag. `.finish` requires a
running task: its `finally` clears the busy flag whatever the outcome. `none`
means the event is not enabled. -/
def asyncStep (s : AsyncState) : AsyncEvent → Option AsyncState
  | .call =>
    if s.busy then some s else some { s with pending := s.pending + 1 }
  | .start =>
    match s.pending with
    | 0 => none
    | p + 1 => some { busy := true, pending := p, running := s.running + 1 }
  | .finish _ =>
    match s.running with
    | 0 => none
    | r + 1 => some { s with busy := false, running := r }

/-- Run a sequence of loop events. -/
def asyncRun (s : AsyncState) : List AsyncEvent → Option AsyncState
  | [] => some s
  | e :: es => (asyncStep s e).bind (fun t => asyncRun t es)

/-- The module-load state: `_async_busy = False`, no tasks. -/
def asyncInit : AsyncState := ⟨false, 0, 0⟩

/-- A trace is prompt when no call to `safe_ensure_future` happens while a
scheduled wrapped task has not yet started (the interval in which the busy
flag does not yet reflect the scheduled task). -/
def promptRun (s : AsyncState) : List AsyncEvent → Bool
  | [] => true
  | e :: es =>
    (match e with
     | .call => s.pending == 0
     | _ => true) &&
    (match asyncStep s e with
     | none => true
     | some t => promptRun t es)

/-- The invariant maintained by prompt traces. -/
def AsyncInv (s : AsyncState) : Prop :=
  s.pending + s.running ≤ 1 ∧ (s.busy = false → s.running = 0)

/-- State read by `DeviceManager._on_timer_tick` and `_check_devices`:
`self._monitoring`, `self._check_in_progress`, and the `async_helper` busy
flag consulted through `is_async_busy()`. -/
structure PollState where
  monitoring : Bool
  checkInProgress : Bool
  asyncBusy : Bool
deriving Repr, DecidableEq

/-- The externally visible effect of one `_on_timer_tick` call. -/
inductive TickResult
  | idle
  | retry (delayMs : Nat)
  | scheduled
deriving Repr, DecidableEq

/-- `DeviceManager._on_timer_tick`. `scheduleOk` says whether
`safe_ensure_future` returned a task rather than `None`. -/
def on_timer_tick (s : PollState) (scheduleOk : Bool) : TickResult :=
  if s.monitoring = false then .idle
  else if s.checkInProgress || s.asyncBusy then .retry 500
  else if scheduleOk then .scheduled
  else .retry 500

/-- How the body of `_check_devices` finishes when the guard is passed: the
scan succeeds, or one of the two `except` arms catches. -/
inductive CheckOutcome
  | ok
  | runtimeError
  | otherError
deriving Repr, DecidableEq

/-- `DeviceManager._check_devices` at entry/exit granularity: the early return
when `self._check_in_progress` is already set, otherwise the flag is set, the
body runs to outcome `o`, and the `finally` clears the flag. Returns the final
state and whether a device scan was performed. -/
def check_devices (s : PollState) (o : CheckOutcome) : PollState × Bool :=
  if s.checkInProgress then (s, false)
  else
    let s1 : PollState := { s with checkInProgress := true }
    match o with
    | _ => ({ s1 with checkInProgress := false }, true)

/-! ## Theorems -/

/-- C2: `_check_errors` raises `DeviceNotFoundError` iff the lowercased stderr
contains `no devices` or `device not found`; otherwise `DeviceUnauthorizedError`
iff it contains `unauthorized`; otherwise `MultipleDevicesError` iff it
contains `more than one device`; and it returns normally iff none of the four
substrings occur. -/
theorem check_errors_spec (stderr : List Char) :
    (check_errors stderr = some ADBCheckFailure.deviceNotFound ↔
      ("no devices".toList <:+: pyLower stderr ∨
       "device not found".toList <:+: pyLower stderr)) ∧
    (check_errors stderr = some ADBCheckFailure.deviceUnauthorized ↔
      (¬ "no devices".toList <:+: pyLower stderr ∧
       ¬ "device not found".toList <:+: pyLower stderr ∧
       "unauthorized".toList <:+: pyLower stderr)) ∧
    (check_errors stderr = some ADBCheckFailure.multipleDevices ↔
      (¬ "no devices".toList <:+: pyLower stderr ∧
       ¬ "device not found".toList <:+: pyLower stderr ∧
       ¬ "unauthorized".toList <:+: pyLower stderr ∧
       "more than one device".toList <:+: pyLower stderr)) ∧
    (check_errors stderr = none ↔
      (¬ "no devices".toList <:+: pyLower stderr ∧
       ¬ "device not found".toList <:+: pyLower stderr ∧
       ¬ "unauthorized".toList <:+: pyLower stderr ∧
       ¬ "more than one device".toList <:+: pyLower stderr)) := by
  simp only [check_errors, pyContains, Bool.or_eq_true, decide_eq_true_eq]
  split_ifs with h1 h2 h3
  all_goals simp_all
  all_goals tauto

/-- C3: each wrapper-boundary operation converts any exception of the
underlying ADB invocation instead of propagating it: `scan_devices` and
`list_directory` return `[]`, the file/app/wireless operations return
`False`. -/
theorem wrapper_error_conversion_spec {ε : Type} (e : ε)
    (getInfo : List Char → Except ε Dict) (path : List Char) :
    scan_devices (Except.error e) getInfo = [] ∧
    list_directory (Except.error e) path = [] ∧
    push_file (Except.error e) = false ∧
    pull_file (Except.error e) = false ∧
    install_apk (Except.error e) = false ∧
    uninstall_package (Except.error e) = false ∧
    pair_wireless (Except.error e) = false ∧
    connect_wireless (Except.error e) = false ∧
    disconnect_wireless (Except.error e) = false :=
  ⟨rfl, rfl, rfl, rfl, rfl, rfl, rfl, rfl, rfl⟩

/-- C6: `pair_wireless` returns `True` iff the `adb pair` invocation raised no
exception and its stdout, lowercased, contains `successfully paired`;
`connect_wireless` returns `True` iff the `adb connect` invocation raised no
exception and its stdout, lowercased, contains `connected`. -/
theorem wireless_result_spec {ε : Type} (r : Except ε (List Char)) :
    (pair_wireless r = true ↔
      ∃ out, r = Except.ok out ∧ "successfully paired".toList <:+: pyLower out) ∧
    (connect_wireless r = true ↔
      ∃ out, r = Except.ok out ∧ "connected".toList <:+: pyLower out) := by
  cases r <;> simp [pair_wireless, connect_wireless, pyContains]

/-- C9 (code bug): `FileInfo.display_size` is not a pure accessor.  On a file
of size 2048 the first read renders `2.0 KB` but stores `size = 2`; the second
read then renders `2.0 B`.  The field changes and the two consecutive reads
disagree. -/
theorem display_size_mutates_size :
    display_size ⟨"f.bin".toList, "/sdcard/f.bin".toList, false, 2048, [], []⟩ =
      (SizeDisplay.num 2 "KB".toList,
       ⟨"f.bin".toList, "/sdcard/f.bin".toList, false, 2, [], []⟩) ∧
    display_size ⟨"f.bin".toList, "/sdcard/f.bin".toList, false, 2, [], []⟩ =
      (SizeDisplay.num 2 "B".toList,
       ⟨"f.bin".toList, "/sdcard/f.bin".toList, false, 2, [], []⟩) ∧
    SizeDisplay.num (2 : ℚ) "KB".toList ≠ SizeDisplay.num (2 : ℚ) "B".toList ∧
    (2048 : ℚ) ≠ 2 := by
  refine ⟨?_, ?_, by decide, by norm_num⟩ <;>
    · simp [display_size, displaySizeLoop]
      norm_num

theorem asyncInv_run :
    ∀ (es : List AsyncEvent) (s s1 : AsyncState),
      AsyncInv s → promptRun s es = true → asyncRun s es = some s1 →
      AsyncInv s1 := by
  intro es
  induction es with
  | nil =>
    intro s s1 hI _ hR
    simp [asyncRun] at hR
    exact hR ▸ hI
  | cons e es ih =>
    intro s s1 hI hP hR
    simp only [asyncRun] at hR
    simp only [promptRun, Bool.and_eq_true] at hP
    obtain ⟨hI1, hI2⟩ := hI
    cases e with
    | call =>
      have hp0 : s.pending = 0 := by
        have := hP.1
        simpa using this
      by_cases hb : s.busy
      · rw [show asyncStep s AsyncEvent.call = some s by
          simp [asyncStep, hb]] at hR hP
        exact ih s s1 ⟨hI1, hI2⟩ hP.2 hR
      · rw [show asyncStep s AsyncEvent.call =
            some { s with pending := s.pending + 1 } by
          simp [asyncStep, hb]] at hR hP
        refine ih _ s1 ⟨?_, ?_⟩ hP.2 hR
        · have hr0 : s.running = 0 := hI2 (by simpa using hb)
          simp [hp0, hr0]
        · intro h
          exact hI2 h
    | start =>
      rcases hs : s.pending with _ | p
      · rw [show asyncStep s AsyncEvent.start = none by
          simp [asyncStep, hs]] at hR
        simp at hR
      · rw [show asyncStep s AsyncEvent.start =
            some ⟨true, p, s.running + 1⟩ by
          simp [asyncStep, hs]] at hR hP
        have hpr : p = 0 ∧ s.running = 0 := by
          rw [hs] at hI1; omega
        refine ih _ s1 ⟨?_, ?_⟩ hP.2 hR
        · simp [hpr.1, hpr.2]
        · intro h; simp at h
    | finish o =>
      rcases hs : s.running with _ | r
      · rw [show asyncStep s (AsyncEvent.finish o) = none by
          simp [asyncStep, hs]] at hR
        simp at hR
      · rw [show asyncStep s (AsyncEvent.finish o) =
            some { s with busy := false, running := r } by
          simp [asyncStep, hs]] at hR hP
        have hpr : s.pending = 0 ∧ r = 0 := by
          rw [hs] at hI1; omega
        refine ih _ s1 ⟨?_, ?_⟩ hP.2 hR
        · simp [hpr.1, hpr.2]
        · intro _; exact hpr.2

/-- C7 (counterexample): two calls to `safe_ensure_future` can both schedule
their coroutine when neither wrapped task has started yet (the busy flag is
set only by the wrapped body), after which both tasks run at once. -/
theorem safe_ensure_future_two_running :
    asyncRun asyncInit
        [AsyncEvent.call, AsyncEvent.call, AsyncEvent.start, AsyncEvent.start] =
      some ⟨true, 0, 2⟩ ∧
    ¬ ((2 : Nat) ≤ 1) :=
  ⟨rfl, by omega⟩

/-- C7 (amended): while the busy flag is set, a call to `safe_ensure_future`
closes the coroutine and returns `None`, leaving the state unchanged; the busy
flag is cleared whenever a wrapped task finishes, for every outcome (return,
raise, cancellation); and along every prompt trace — one in which no call
happens while a scheduled wrapped task has not yet started — at most one
wrapped task is ever running. -/
theorem safe_ensure_future_spec :
    AsyncInv asyncInit ∧
    (∀ s : AsyncState, s.busy = true →
      asyncStep s AsyncEvent.call = some s ∧ callSchedules s = false) ∧
    (∀ (s s1 : AsyncState) (o : TaskOutcome),
      asyncStep s (AsyncEvent.finish o) = some s1 → s1.busy = false) ∧
    (∀ (es : List AsyncEvent) (s1 : AsyncState),
      promptRun asyncInit es = true → asyncRun asyncInit es = some s1 →
      s1.running ≤ 1) := by
  refine ⟨⟨by simp [asyncInit], by simp [asyncInit]⟩, ?_, ?_, ?_⟩
  · intro s hb
    exact ⟨by simp [asyncStep, hb], by simp [callSchedules, hb]⟩
  · intro s s1 o h
    rcases hs : s.running with _ | r
    · rw [show asyncStep s (AsyncEvent.finish o) = none by
        simp [asyncStep, hs]] at h
      simp at h
    · rw [show asyncStep s (AsyncEvent.finish o) =
          some { s with busy := false, running := r } by
        simp [asyncStep, hs]] at h
      cases h
      rfl
  · intro es s1 hP hR
    obtain ⟨h1, h2⟩ := asyncInv_run es asyncInit s1
      ⟨by simp [asyncInit], by simp [asyncInit]⟩ hP hR
    omega

/-- Closed instance of `safe_ensure_future_spec` evaluated on concrete
states and a concrete three-event trace. -/
theorem safe_ensure_future_spec_witness :
    (asyncStep ⟨true, 0, 1⟩ AsyncEvent.call = some ⟨true, 0, 1⟩ ∧
      callSchedules ⟨true, 0, 1⟩ = false) ∧
    ((⟨false, 0, 0⟩ : AsyncState).running ≤ 1) :=
  ⟨safe_ensure_future_spec.2.1 ⟨true, 0, 1⟩ rfl,
   safe_ensure_future_spec.2.2.2
     [AsyncEvent.call, AsyncEvent.start, AsyncEvent.finish TaskOutcome.cancelled]
     ⟨false, 0, 0⟩ (by decide) (by decide)⟩

/-- C8: a timer tick of the running polling loop schedules a device check only
when no check is in progress and no other async operation is busy, and
otherwise re-arms a 500 ms retry without scanning; `_check_devices` returns
immediately (same state, no scan) when its in-progress flag is set, and when
it passes the guard it scans and always leaves the flag cleared, whatever the
outcome. -/
theorem device_poll_guard_spec :
    ∀ (s : PollState) (ok : Bool) (o : CheckOutcome),
      (on_timer_tick s ok = TickResult.scheduled →
        s.checkInProgress = false ∧ s.asyncBusy = false) ∧
      (s.monitoring = true → (s.checkInProgress = true ∨ s.asyncBusy = true) →
        on_timer_tick s ok = TickResult.retry 500) ∧
      (s.checkInProgress = true → check_devices s o = (s, false)) ∧
      (s.checkInProgress = false →
        (check_devices s o).1.checkInProgress = false ∧
        (check_devices s o).2 = true) := by
  intro s ok o
  rcases s with ⟨m, c, b⟩
  cases m <;> cases c <;> cases b <;> cases ok <;> cases o <;> decide

/-- Closed instance of `device_poll_guard_spec`: a tick re-arms the 500 ms
retry while a check is in progress, and a guarded run clears the flag. -/
theorem device_poll_guard_spec_witness :
    on_timer_tick ⟨true, true, false⟩ true = TickResult.retry 500 ∧
    (check_devices ⟨true, false, false⟩ CheckOutcome.otherError).1.checkInProgress
      = false :=
  ⟨(device_poll_guard_spec ⟨true, true, false⟩ true CheckOutcome.ok).2.1 rfl
      (Or.inl rfl),
   ((device_poll_guard_spec ⟨true, false, false⟩ true
      CheckOutcome.otherError).2.2.2 rfl).1⟩

theorem dictGet_dictInsert (d : Dict) (k v k0 : List Char) :
    dictGet (dictInsert d k v) k0 =
      if k = k0 then some v else dictGet d k0 := by
  induction d with
  | nil => simp [dictInsert, dictGet]
  | cons p rest ih =>
    obtain ⟨k1, v1⟩ := p
    by_cases h1 : k1 = k
    · subst h1
      by_cases h0 : k1 = k0 <;> simp [dictInsert, dictGet, h0]
    · by_cases h0 : k1 = k0
      · subst h0
        simp [dictInsert, dictGet, h1, Ne.symm h1]
      · simp [dictInsert, dictGet, h1, h0, ih]

theorem dictGet_foldl_insert_ne_none (ps : List (List Char × List Char))
    (d : Dict) (k : List Char) (h : dictGet d k ≠ none) :
    dictGet (ps.foldl (fun d kv => dictInsert d kv.1 kv.2) d) k ≠ none := by
  induction ps generalizing d with
  | nil => exact h
  | cons kv ps ih =>
    refine ih (dictInsert d kv.1 kv.2) ?_
    rw [dictGet_dictInsert]
    by_cases hk : kv.1 = k <;> simp [hk, h]

theorem dictInsert_of_fresh (d : Dict) (k v : List Char)
    (h : ∀ pair ∈ d, pair.1 ≠ k) :
    dictInsert d k v = d ++ [(k, v)] := by
  induction d with
  | nil => rfl
  | cons p rest ih =>
    obtain ⟨k1, v1⟩ := p
    have h1 : k1 ≠ k := h (k1, v1) (List.mem_cons_self _ _)
    simp only [dictInsert, if_neg h1, List.cons_append, List.cons.injEq, true_and]
    exact ih (fun pair hp => h pair (List.mem_cons_of_mem _ hp))

theorem foldl_dictInsert_of_fresh (ps : Dict) :
    ∀ (d : Dict), (ps.map Prod.fst).Nodup →
      (∀ k ∈ ps.map Prod.fst, ∀ pair ∈ d, pair.1 ≠ k) →
      ps.foldl (fun d kv => dictInsert d kv.1 kv.2) d = d ++ ps := by
  induction ps with
  | nil => intro d _ _; simp
  | cons kv ps ih =>
    intro d hnd hdisj
    have hnd1 : (List.map Prod.fst ps).Nodup :=
      (List.nodup_cons.1 (by simpa using hnd)).2
    have hhead : kv.1 ∉ List.map Prod.fst ps :=
      (List.nodup_cons.1 (by simpa using hnd)).1
    have h1 : dictInsert d kv.1 kv.2 = d ++ [kv] :=
      dictInsert_of_fresh d kv.1 kv.2 (hdisj kv.1 (by simp))
    simp only [List.foldl_cons, h1]
    rw [ih (d ++ [kv]) hnd1 ?_]
    · simp
    · intro k hk pair hp
      rcases List.mem_append.1 hp with hd | hkv
      · exact hdisj k
          (by simp only [List.map_cons, List.mem_cons]; exact Or.inr hk) pair hd
      · have hpkv : pair = kv := by simpa using hkv
        subst hpkv
        intro hc
        exact hhead (by rw [hc]; exact hk)

theorem foldl_colon_insert (ps : List (List Char)) :
    ∀ d : Dict,
      ps.foldl
        (fun d part =>
          if (':' : Char) ∈ part then
            dictInsert d (splitFirst ':' part).1 (splitFirst ':' part).2
          else d) d =
      (ps.filterMap (fun part =>
        if (':' : Char) ∈ part then some (splitFirst ':' part) else none)).foldl
        (fun d kv => dictInsert d kv.1 kv.2) d := by
  induction ps with
  | nil => intro d; rfl
  | cons p ps ih =>
    intro d
    by_cases hc : (':' : Char) ∈ p
    · simp only [List.foldl_cons, List.filterMap_cons, hc, ite_true]
      exact ih _
    · simp only [List.foldl_cons, List.filterMap_cons, hc, ite_false]
      exact ih _

theorem pyStrip_all_space {l : List Char} (h : pyStrip l = []) :
    ∀ c ∈ l, pyIsSpace c = true := by
  have hsplit : rstripP pyIsSpace l ++ (l.reverse.takeWhile pyIsSpace).reverse = l := by
    rw [rstripP, ← List.reverse_append, List.takeWhile_append_dropWhile,
      List.reverse_reverse]
  have hr : ∀ c ∈ pyRstrip l, pyIsSpace c = true := by
    intro c hc
    have := List.dropWhile_eq_nil_iff.1 h
    exact this c hc
  intro c hc
  rw [← hsplit] at hc
  rcases List.mem_append.1 hc with h1 | h2
  · exact hr c h1
  · exact List.mem_takeWhile_imp (List.mem_reverse.1 h2)

theorem pySplitWs_of_blank {l : List Char} (h : pyStrip l = []) :
    pySplitWs l none = [] := by
  have hd : l.dropWhile pyIsSpace = [] :=
    List.dropWhile_eq_nil_iff.2 (pyStrip_all_space h)
  simp [pySplitWs, pySplitWsF, hd]

/-- C4 (amended): every record returned by `get_devices` contains the keys
`serial` and `state`; and whenever no later `key:value` field of a line
repeats a key or uses the keys `serial`/`state`, the records are exactly those
described by the claim (first field as `serial`, second as `state`, one entry
per colon field).  Without that proviso a later field such as `serial:x`
overrides the first-field value, because the source merges the fields into the
record with `{'serial': ..., 'state': ..., **info}`. -/
theorem get_devices_spec (stdout : List Char) :
    (∀ r ∈ get_devices stdout,
      dictGet r "serial".toList ≠ none ∧ dictGet r "state".toList ≠ none) ∧
    ((∀ line ∈ (splitOnChar '\n' (pyStrip stdout)).drop 1,
        ((colonFields (pySplitWs line none)).map Prod.fst).Nodup ∧
        ∀ k ∈ (colonFields (pySplitWs line none)).map Prod.fst,
          k ≠ "serial".toList ∧ k ≠ "state".toList) →
      get_devices stdout = get_devices_claim stdout) := by
  constructor
  · intro r hr
    rw [get_devices, List.mem_filterMap] at hr
    obtain ⟨line, _, hf⟩ := hr
    by_cases hb : pyStrip line = []
    · simp [hb] at hf
    · by_cases hlen : (pySplitWs line none).length < 2
      · simp [hb, hlen] at hf
      · simp only [hb, if_false, hlen, Option.some.injEq] at hf
        subst hf
        constructor <;>
          exact dictGet_foldl_insert_ne_none _ _ _ (by simp [dictGet])
  · intro hfresh
    rw [get_devices, get_devices_claim]
    apply List.filterMap_congr
    intro line hline
    obtain ⟨hnd, hks⟩ := hfresh line hline
    by_cases hb : pyStrip line = []
    · simp [hb, pySplitWs_of_blank hb]
    · by_cases hlen : (pySplitWs line none).length < 2
      · simp [hb, hlen]
      · simp only [hb, if_false, hlen, Option.some.injEq]
        simp only [colonFields] at hnd hks ⊢
        rw [foldl_colon_insert]
        rw [foldl_dictInsert_of_fresh _ _ hnd
          (fun k _ pair hp => absurd hp (List.not_mem_nil _))]
        rw [List.nil_append]
        rw [foldl_dictInsert_of_fresh _ _ hnd ?_]
        intro k hk pair hp
        obtain ⟨h1, h2⟩ := hks k hk
        simp only [List.mem_cons, List.not_mem_nil, or_false] at hp
        rcases hp with hp | hp <;> rw [hp]
        · exact Ne.symm h1
        · exact Ne.symm h2

/-- Closed instance of `get_devices_spec` on a well-formed `adb devices -l`
output, whose colon fields are distinct and do not collide with
`serial`/`state`. -/
theorem get_devices_spec_witness :
    get_devices "List of devices attached\nemu-5554 device product:sdk model:P3".toList =
      get_devices_claim
        "List of devices attached\nemu-5554 device product:sdk model:P3".toList :=
  (get_devices_spec
    "List of devices attached\nemu-5554 device product:sdk model:P3".toList).2
    (by decide)

/-- C4 (counterexample): on the line `ABC device serial:XYZ` the returned
record's `serial` value is `XYZ`, not the first field `ABC`, and the records
differ from the claim's. -/
theorem get_devices_cex :
    get_devices "List of devices attached\nABC device serial:XYZ".toList ≠
      get_devices_claim "List of devices attached\nABC device serial:XYZ".toList ∧
    dictGet
        ((get_devices "List of devices attached\nABC device serial:XYZ".toList).getD
          0 [])
        "serial".toList = some "XYZ".toList ∧
    (pySplitWs "ABC device serial:XYZ".toList none).getD 0 [] = "ABC".toList ∧
    "XYZ".toList ≠ "ABC".toList := by
  refine ⟨by decide, by decide, by decide, by decide⟩

theorem splitOnChar_ne_nil (c : Char) (l : List Char) : splitOnChar c l ≠ [] := by
  cases l with
  | nil => simp [splitOnChar]
  | cons x xs =>
    rw [splitOnChar]
    rcases h : splitOnChar c xs with _ | ⟨y, ys⟩ <;> by_cases hx : x = c <;>
      simp [hx]

theorem splitOnChar_of_not_mem {c : Char} {l : List Char} (h : c ∉ l) :
    splitOnChar c l = [l] := by
  induction l with
  | nil => rfl
  | cons x xs ih =>
    have hx : ¬ x = c := fun hc => h (hc ▸ List.mem_cons_self x xs)
    have hxs : c ∉ xs := fun hc => h (List.mem_cons_of_mem x hc)
    simp [splitOnChar, ih hxs, hx]

theorem splitOnChar_append {c : Char} (xs : List Char) {ys : List Char}
    (h : c ∉ ys) :
    splitOnChar c (xs ++ c :: ys) = splitOnChar c xs ++ [ys] := by
  induction xs with
  | nil =>
    simp [splitOnChar, splitOnChar_of_not_mem h]
  | cons x xs ih =>
    rw [List.cons_append]
    rcases hs : splitOnChar c xs with _ | ⟨y, ys0⟩
    · exact absurd hs (splitOnChar_ne_nil c xs)
    · by_cases hx : x = c <;> simp [splitOnChar, ih, hs, hx]

theorem intercalateChar_splitOnChar (c : Char) (l : List Char) :
    intercalateChar c (splitOnChar c l) = l := by
  induction l with
  | nil => rfl
  | cons x xs ih =>
    rcases hs : splitOnChar c xs with _ | ⟨y, ys⟩
    · exact absurd hs (splitOnChar_ne_nil c xs)
    · rw [hs] at ih
      by_cases hx : x = c
      · subst hx
        simp only [splitOnChar, hs, if_pos rfl]
        rcases ys with _ | ⟨z, zs⟩ <;>
          simpa [intercalateChar] using ih
      · rcases ys with _ | ⟨z, zs⟩
        · simp only [intercalateChar] at ih
          simp [splitOnChar, hs, hx, intercalateChar, ih]
        · simp only [intercalateChar, List.cons_append] at ih
          simp only [splitOnChar, hs, if_neg hx, intercalateChar,
            List.cons_append]
          rw [ih]

theorem dropWhile_last_cases (p : Char → Bool) (a : Char) (xs : List Char) :
    List.dropWhile p (xs ++ [a]) = [] ∨
    ∃ ys, List.dropWhile p (xs ++ [a]) = ys ++ [a] := by
  induction xs with
  | nil =>
    by_cases hp : p a
    · left; simp [List.dropWhile, hp]
    · right; exact ⟨[], by simp [List.dropWhile, hp]⟩
  | cons x xs ih =>
    by_cases hp : p x
    · rw [List.cons_append, List.dropWhile_cons_of_pos (by simpa using hp)]
      exact ih
    · right
      refine ⟨x :: xs, ?_⟩
      rw [List.cons_append, List.dropWhile_cons_of_neg (by simpa using hp)]

theorem rstripP_head_cases (p : Char → Bool) (a : Char) (t : List Char) :
    rstripP p (a :: t) = [] ∨ ∃ t2, rstripP p (a :: t) = a :: t2 := by
  rw [rstripP, List.reverse_cons]
  rcases dropWhile_last_cases p a t.reverse with h | ⟨ys, h⟩
  · left; rw [h]; rfl
  · right
    exact ⟨ys.reverse, by rw [h, List.reverse_append]; rfl⟩

theorem dropLast_cons2 (a b : List Char) (l : List (List Char)) :
    (a :: b :: l).dropLast = a :: (b :: l).dropLast := rfl

theorem joined_of_decomp (pre : List Char) {s : List Char}
    (hs : ('/' : Char) ∉ s) :
    intercalateChar '/' ((splitOnChar '/' (pre ++ '/' :: s)).dropLast) = pre := by
  rw [splitOnChar_append pre hs, List.dropLast_concat,
    intercalateChar_splitOnChar]

theorem joined_of_no_slash {q : List Char} (h : ('/' : Char) ∉ q) :
    intercalateChar '/' ((splitOnChar '/' q).dropLast) = [] := by
  rw [splitOnChar_of_not_mem h]
  rfl

theorem startsWith_slash_iff (l : List Char) :
    pyStartsWith ['/'] l = true ↔ ∃ t, l = '/' :: t := by
  cases l with
  | nil => simp [pyStartsWith]
  | cons a t =>
    simp only [pyStartsWith, decide_eq_true_eq, List.cons_prefix_cons,
      List.nil_prefix, and_true]
    constructor
    · intro h; exact ⟨t, by rw [← h]⟩
    · rintro ⟨t2, heq⟩
      exact (List.cons.inj heq).1.symm

theorem update_path_abs (cur cmd : List Char)
    (h : pyStartsWith ['/'] cur = true) :
    pyStartsWith ['/'] (update_path_from_cd cur cmd) = true := by
  obtain ⟨t, rfl⟩ := (startsWith_slash_iff cur).1 h
  simp only [update_path_from_cd]
  by_cases h1 : (pySplitWs cmd (some 1)).length < 2
  · rw [if_pos h1]; decide
  rw [if_neg h1]
  set np := pyStrip ((pySplitWs cmd (some 1)).getD 1 []) with hnp
  by_cases h2 : np = "~".toList ∨ np = []
  · rw [if_pos h2]; decide
  rw [if_neg h2]
  by_cases h3 : np = "/".toList
  · rw [if_pos h3]; decide
  rw [if_neg h3]
  by_cases h4 : pyStartsWith "/".toList np = true
  · rw [if_pos h4]; exact h4
  rw [if_neg h4]
  by_cases h5 : np = "..".toList
  · rw [if_pos h5]
    by_cases h6 : ('/' :: t) ≠ "/".toList
    · rw [if_pos h6]
      by_cases hj : intercalateChar '/'
          ((splitOnChar '/' (rstripP (· == '/') ('/' :: t))).dropLast) = []
      · rw [if_pos hj]; decide
      · rw [if_neg hj]
        rcases rstripP_head_cases (· == '/') '/' t with hq | ⟨t2, hq⟩
        · exact absurd (by rw [hq]; rfl) hj
        · rw [hq] at hj ⊢
          rcases hs2 : splitOnChar '/' t2 with _ | ⟨y, ys⟩
          · exact absurd hs2 (splitOnChar_ne_nil '/' t2)
          · have hsc : splitOnChar '/' ('/' :: t2) = [] :: y :: ys := by
              simp [splitOnChar, hs2]
            rw [hsc] at hj ⊢
            rcases ys with _ | ⟨z, zs⟩
            · exact absurd (by rfl) hj
            · rw [dropLast_cons2]
              rw [show intercalateChar '/' ([] :: (y :: z :: zs).dropLast) =
                  '/' :: intercalateChar '/' ((y :: z :: zs).dropLast) by
                rw [dropLast_cons2]
                rfl]
              rw [startsWith_slash_iff]
              exact ⟨_, rfl⟩
    · rw [if_neg h6]
      rw [startsWith_slash_iff]
      exact ⟨t, rfl⟩
  · rw [if_neg h5]
    by_cases h7 : ('/' :: t) = "/".toList
    · rw [if_pos h7]
      rw [startsWith_slash_iff]
      exact ⟨np, rfl⟩
    · rw [if_neg h7]
      rcases rstripP_head_cases (· == '/') '/' t with hq | ⟨t2, hq⟩
      · rw [hq, List.nil_append, startsWith_slash_iff]
        exact ⟨_, rfl⟩
      · rw [hq, List.cons_append, startsWith_slash_iff]
        exact ⟨_, rfl⟩

/-- C10: the tracked terminal path is always absolute: starting from the `/`
set when a shell session starts, any sequence of `_update_path_from_cd` calls
with arbitrary commands leaves `current_path` beginning with `/`. -/
theorem current_path_absolute (cmds : List (List Char)) :
    pyStartsWith ['/'] (cmds.foldl update_path_from_cd shellStartPath) = true := by
  suffices h : ∀ (cs : List (List Char)) (p : List Char),
      pyStartsWith ['/'] p = true →
      pyStartsWith ['/'] (cs.foldl update_path_from_cd p) = true from
    h cmds shellStartPath (by decide)
  intro cs
  induction cs with
  | nil => intro p hp; exact hp
  | cons c cs ih =>
    intro p hp
    exact ih _ (update_path_abs p c hp)

theorem dropWhile_eq_self_of_false {p : Char → Bool} {l : List Char}
    (h : ∀ c ∈ l, p c = false) : l.dropWhile p = l := by
  cases l with
  | nil => rfl
  | cons a t => simp [List.dropWhile_cons, h a (by simp)]

theorem pyStrip_eq_self_of_nonspace {l : List Char}
    (h : ∀ c ∈ l, pyIsSpace c = false) : pyStrip l = l := by
  have hr : pyRstrip l = l := by
    rw [pyRstrip, rstripP,
      dropWhile_eq_self_of_false (fun c hc => h c (List.mem_reverse.1 hc)),
      List.reverse_reverse]
  rw [pyStrip, hr, pyLstrip, dropWhile_eq_self_of_false h]

theorem pySplitWs_cd (arg : List Char) (h1 : arg ≠ [])
    (h2 : ∀ c ∈ arg, pyIsSpace c = false) :
    pySplitWs ('c' :: 'd' :: ' ' :: arg) (some 1) = [['c', 'd'], arg] := by
  have hc : pyIsSpace 'c' = false := by decide
  have hd : pyIsSpace 'd' = false := by decide
  have hsp : pyIsSpace ' ' = true := by decide
  have hdw : List.dropWhile pyIsSpace arg = arg :=
    dropWhile_eq_self_of_false h2
  have htail : pySplitWsF (arg.length + 3) (' ' :: arg) (some 0) = [arg] := by
    rw [show arg.length + 3 = (arg.length + 2) + 1 from rfl, pySplitWsF]
    simp only [List.dropWhile_cons, hsp, if_true, hdw]
    rw [if_neg h1]
  rw [pySplitWs]
  simp only [List.length_cons]
  rw [pySplitWsF]
  simp only [List.dropWhile_cons, hc, Bool.false_eq_true, if_false,
    List.takeWhile_cons, Bool.not_false, Bool.not_true, hd, hsp, if_true,
    reduceCtorEq]
  rw [show (Option.map (fun x => x - 1) (some 1) : Option Nat) = some 0
    from rfl]
  rw [htail]
  intro hx
  exact absurd (Option.some.inj hx) (by decide)

/-- C5 (counterexample): with tracked path `/data/` (reachable via
`cd /data/`), the command `cd foo` yields `/data/foo`, not the claim's
"current path plus `/` plus argument", which would be `/data//foo`. -/
theorem update_path_from_cd_cex :
    update_path_from_cd "/data/".toList "cd foo".toList = "/data/foo".toList ∧
    "/data/foo".toList ≠ "/data/".toList ++ '/' :: "foo".toList := by
  exact ⟨by decide, by decide⟩

/-- C5 (amended): for a `cd` with no argument, or argument `~`, the tracked
path becomes `/data/data`; an argument beginning with `/` replaces the path;
`..` leaves the root unchanged and otherwise removes the last `/`-separated
component of the path (after discarding trailing slashes), yielding `/` when
nothing remains; and any other relative argument is appended after a single
`/` to the path with its trailing slashes removed (the root contributing just
the slash). -/
theorem update_path_from_cd_spec (cur arg : List Char) (h1 : arg ≠ [])
    (h2 : ∀ c ∈ arg, pyIsSpace c = false) :
    (update_path_from_cd cur "cd".toList = "/data/data".toList) ∧
    (arg = "~".toList →
      update_path_from_cd cur ("cd ".toList ++ arg) = "/data/data".toList) ∧
    (pyStartsWith ['/'] arg = true →
      update_path_from_cd cur ("cd ".toList ++ arg) = arg) ∧
    (arg = "..".toList →
      (cur = "/".toList →
        update_path_from_cd cur ("cd ".toList ++ arg) = cur) ∧
      (cur ≠ "/".toList →
        (('/' : Char) ∉ rstripP (· == '/') cur →
          update_path_from_cd cur ("cd ".toList ++ arg) = "/".toList) ∧
        (∀ pre s, rstripP (· == '/') cur = pre ++ '/' :: s →
          ('/' : Char) ∉ s →
          update_path_from_cd cur ("cd ".toList ++ arg) =
            (if pre = [] then "/".toList else pre)))) ∧
    (arg ≠ "~".toList → pyStartsWith ['/'] arg = false → arg ≠ "..".toList →
      update_path_from_cd cur ("cd ".toList ++ arg) =
        (if cur = "/".toList then [] else rstripP (· == '/') cur) ++
          '/' :: arg) := by
  have hsplit : pySplitWs ("cd ".toList ++ arg) (some 1) = [['c', 'd'], arg] :=
    pySplitWs_cd arg h1 h2
  have hstrip : pyStrip arg = arg := pyStrip_eq_self_of_nonspace h2
  have hbase : update_path_from_cd cur ("cd ".toList ++ arg) =
      (if arg = "~".toList ∨ arg = [] then "/data/data".toList
       else if arg = "/".toList then "/".toList
       else if pyStartsWith "/".toList arg then arg
       else if arg = "..".toList then
         (if cur ≠ "/".toList then
           (if intercalateChar '/'
               ((splitOnChar '/' (rstripP (· == '/') cur)).dropLast) = []
            then "/".toList
            else intercalateChar '/'
              ((splitOnChar '/' (rstripP (· == '/') cur)).dropLast))
          else cur)
       else
         (if cur = "/".toList then '/' :: arg
          else rstripP (· == '/') cur ++ '/' :: arg)) := by
    simp only [update_path_from_cd, hsplit, List.length_cons, List.length_nil,
      List.getD_cons_succ, List.getD_cons_zero, hstrip]
    rw [if_neg (by omega)]
  refine ⟨by rfl, ?_, ?_, ?_, ?_⟩
  · intro h
    rw [hbase, if_pos (Or.inl h)]
  · intro h
    obtain ⟨t, rfl⟩ := (startsWith_slash_iff arg).1 h
    rw [hbase, if_neg (show ¬('/' :: t = "~".toList ∨ '/' :: t = []) from by
      rintro (hx | hx)
      · exact absurd (List.cons.inj hx).1 (by decide)
      · exact List.cons_ne_nil _ _ hx)]
    by_cases ht : t = []
    · subst ht
      rw [if_pos (show ('/' : Char) :: [] = "/".toList from rfl)]
      rfl
    · rw [if_neg (show ¬('/' :: t = "/".toList) from by
        intro hx
        exact ht (List.cons.inj hx).2)]
      rw [if_pos (show pyStartsWith "/".toList ('/' :: t) = true from h)]
  · intro h
    subst h
    have hred : update_path_from_cd cur ("cd ".toList ++ "..".toList) =
        (if cur ≠ "/".toList then
          (if intercalateChar '/'
              ((splitOnChar '/' (rstripP (· == '/') cur)).dropLast) = []
           then "/".toList
           else intercalateChar '/'
             ((splitOnChar '/' (rstripP (· == '/') cur)).dropLast))
         else cur) := by
      rw [hbase, if_neg (by decide), if_neg (by decide), if_neg (by decide),
        if_pos (show "..".toList = "..".toList from rfl)]
    constructor
    · intro hc
      rw [hred, if_neg (show ¬(cur ≠ "/".toList) from fun hn => hn hc)]
    · intro hc
      constructor
      · intro hns
        rw [hred, if_pos hc, if_pos (joined_of_no_slash hns)]
      · intro pre s hdec hs
        rw [hred, if_pos hc, hdec, joined_of_decomp pre hs]
  · intro hn1 hn2 hn3
    rw [hbase,
      if_neg (show ¬(arg = "~".toList ∨ arg = []) from by
        rintro (hx | hx)
        · exact hn1 hx
        · exact h1 hx),
      if_neg (show ¬(arg = "/".toList) from fun hc => by
        rw [hc] at hn2
        exact absurd hn2 (by decide)),
      if_neg (show ¬(pyStartsWith "/".toList arg = true) from fun hc =>
        absurd (show pyStartsWith ['/'] arg = true from hc) (by simp [hn2])),
      if_neg hn3]
    by_cases hcur : cur = "/".toList
    · rw [if_pos hcur, if_pos hcur]
      rfl
    · rw [if_neg hcur, if_neg hcur]

/-- Closed instance of `update_path_from_cd_spec`: a bare `cd` goes to
`/data/data` and `cd ..` from `/a/b` goes to `/a`. -/
theorem update_path_from_cd_spec_witness :
    update_path_from_cd "/a/b".toList "cd".toList = "/data/data".toList ∧
    update_path_from_cd "/a/b".toList "cd ..".toList = "/a".toList := by
  refine ⟨(update_path_from_cd_spec "/a/b".toList "..".toList (by decide)
    (by decide)).1, ?_⟩
  have h := (((update_path_from_cd_spec "/a/b".toList "..".toList (by decide)
    (by decide)).2.2.2.1 rfl).2 (by decide)).2 "/a".toList ['b'] (by decide)
    (by decide)
  simpa using h

theorem dropWhile_append_cons {p : Char → Bool} {c : Char} (hc : p c = false)
    (u v : List Char) :
    List.dropWhile p (u ++ c :: v) = List.dropWhile p u ++ c :: v := by
  induction u with
  | nil => simp [List.dropWhile_cons, hc]
  | cons a u ih =>
    by_cases ha : p a
    · simp [List.dropWhile_cons, ha, ih]
    · simp [List.dropWhile_cons, ha]

theorem pyRstrip_append_cons {c : Char} (hc : pyIsSpace c = false)
    (u v : List Char) :
    pyRstrip (u ++ c :: v) = u ++ c :: pyRstrip v := by
  rw [pyRstrip, pyRstrip, rstripP, rstripP,
    show (u ++ c :: v).reverse = v.reverse ++ c :: u.reverse by simp,
    dropWhile_append_cons hc]
  simp

theorem dropWhile_idem (p : Char → Bool) (l : List Char) :
    List.dropWhile p (List.dropWhile p l) = List.dropWhile p l := by
  induction l with
  | nil => rfl
  | cons a t ih =>
    by_cases ha : p a
    · simp [List.dropWhile_cons, ha, ih]
    · simp [List.dropWhile_cons, ha]

theorem pyRstrip_idem (l : List Char) : pyRstrip (pyRstrip l) = pyRstrip l := by
  rw [pyRstrip, pyRstrip, rstripP, rstripP, List.reverse_reverse,
    dropWhile_idem]

theorem pyStrip_pyRstrip (l : List Char) : pyStrip (pyRstrip l) = pyStrip l := by
  rw [pyStrip, pyStrip, pyRstrip_idem]

theorem findIdxA_append {p : Char → Bool} {xs : List Char}
    (hxs : ∀ x ∈ xs, p x = false) {c : Char} (hc : p c = true)
    (ys : List Char) :
    findIdxA p (xs ++ c :: ys) = some xs.length := by
  induction xs with
  | nil => simp [findIdxA, hc]
  | cons a xs ih =>
    have ha : p a = false := hxs a (by simp)
    simp only [List.cons_append, findIdxA, ha, Bool.false_eq_true, if_false]
    rw [show xs.append (c :: ys) = xs ++ c :: ys from rfl]
    rw [ih (fun x hx => hxs x (by simp [hx]))]
    simp

/-- C1: on every line of the exact `-v time` shape — an 18-character timestamp,
a space, a non-space level character, `/`, a tag free of `(` and `:`, `(`, a
pid free of `)` and `:`, then `):` and the message — `_parse_log_line` returns
the record with the stripped timestamp, the level character, the stripped tag,
the stripped pid and the stripped message; and every line shorter than 20
characters yields `None`. -/
theorem parse_log_line_spec :
    (∀ (ts : List Char) (lvl : Char) (tag pid msg : List Char),
      ts.length = 18 →
      pyIsSpace lvl = false →
      ('(' : Char) ∉ tag → (':' : Char) ∉ tag →
      (')' : Char) ∉ pid → (':' : Char) ∉ pid →
      parse_log_line
          (ts ++ ' ' :: lvl :: '/' :: (tag ++ '(' :: (pid ++ ')' :: ':' :: msg)))
        = some ⟨pyStrip ts, pyStrip pid, [], [lvl], pyStrip tag, pyStrip msg⟩) ∧
    (∀ line : List Char, line.length < 20 → parse_log_line line = none) := by
  constructor
  · intro ts lvl tag pid msg hts hlvl htagp htagc hpidp hpidc
    have hlen : ¬ ((ts ++ ' ' :: lvl :: '/' ::
        (tag ++ '(' :: (pid ++ ')' :: ':' :: msg))).length < 20) := by
      simp only [List.length_append, List.length_cons, hts]
      omega
    have htake : (ts ++ ' ' :: lvl :: '/' ::
        (tag ++ '(' :: (pid ++ ')' :: ':' :: msg))).take 18 = ts :=
      List.take_left' hts
    have hdrop : (ts ++ ' ' :: lvl :: '/' ::
        (tag ++ '(' :: (pid ++ ')' :: ':' :: msg))).drop 18 =
        ' ' :: lvl :: '/' :: (tag ++ '(' :: (pid ++ ')' :: ':' :: msg)) :=
      List.drop_left' hts
    have hrest : pyStrip ((ts ++ ' ' :: lvl :: '/' ::
        (tag ++ '(' :: (pid ++ ')' :: ':' :: msg))).drop 18) =
        lvl :: '/' :: (tag ++ '(' :: (pid ++ ')' :: ':' :: pyRstrip msg)) := by
      rw [hdrop, pyStrip]
      rw [show ' ' :: lvl :: '/' :: (tag ++ '(' :: (pid ++ ')' :: ':' :: msg)) =
          (' ' :: lvl :: '/' :: (tag ++ '(' :: pid)) ++ ')' :: ':' :: msg by
        simp]
      rw [pyRstrip_append_cons (by decide)]
      have h1 : pyRstrip (':' :: msg) = ':' :: pyRstrip msg := by
        have h2 := pyRstrip_append_cons (c := ':') (by decide) [] msg
        simpa using h2
      rw [h1, pyLstrip]
      have hsp2 : pyIsSpace ' ' = true := by decide
      simp [List.dropWhile_cons, hlvl, hsp2]
    simp only [parse_log_line]
    rw [if_neg hlen, hrest, htake]
    set m1 := pyRstrip msg with hm1
    set W := tag ++ '(' :: (pid ++ ')' :: ':' :: m1) with hWdef
    rw [if_neg (List.cons_ne_nil _ _)]
    rw [if_neg (show ¬((lvl :: '/' :: W).length < 2 ∨
        (lvl :: '/' :: W).getD 1 ' ' ≠ '/') from by
      rintro (h | h)
      · simp only [List.length_cons] at h
        omega
      · exact h rfl)]
    rw [show (lvl :: '/' :: W).drop 2 = W from rfl]
    rw [show (lvl :: '/' :: W).headD 'I' = lvl from rfl]
    have hfip : findIdxA (· == '(') W = some tag.length := by
      rw [hWdef]
      refine findIdxA_append ?_ (by decide) _
      intro x hx
      rw [beq_eq_false_iff_ne]
      exact fun he => htagp (by rw [← he]; exact hx)
    have hparen : pyFind W '(' = ((tag.length : Nat) : Int) := by
      simp only [pyFind, hfip]
    have hfic : findIdxA (· == ':') W =
        some (tag ++ '(' :: (pid ++ [')'])).length := by
      rw [hWdef, show tag ++ '(' :: (pid ++ ')' :: ':' :: m1) =
          (tag ++ '(' :: (pid ++ [')'])) ++ ':' :: m1 from by simp]
      refine findIdxA_append ?_ (by decide) _
      intro x hx
      rw [beq_eq_false_iff_ne]
      rcases List.mem_append.1 hx with h | h
      · exact fun he => htagc (by rw [← he]; exact h)
      · rcases List.mem_cons.1 h with rfl | h2
        · decide
        · rcases List.mem_append.1 h2 with h3 | h3
          · exact fun he => hpidc (by rw [← he]; exact h3)
          · have hx2 : x = ')' := by simpa using h3
            subst hx2
            decide
    have hxsl : (tag ++ '(' :: (pid ++ [')'])).length =
        tag.length + pid.length + 2 := by
      simp only [List.length_append, List.length_cons, List.length_nil]
      omega
    have hcolon : pyFind W ':' =
        ((tag.length + pid.length + 2 : Nat) : Int) := by
      simp only [pyFind, hfic, hxsl]
    rw [hparen, hcolon]
    rw [if_pos (show ((tag.length : Nat) : Int) ≠ -1 ∧
        ((tag.length : Nat) : Int) <
          ((tag.length + pid.length + 2 : Nat) : Int) from
      ⟨by omega, by omega⟩)]
    simp only [Int.toNat_ofNat]
    have hW2 : W = (tag ++ '(' :: pid) ++ ')' :: ':' :: m1 := by
      rw [hWdef]; simp
    have hpe : pyFindFrom W ')' tag.length =
        ((tag.length + (pid.length + 1) : Nat) : Int) := by
      have hdropW : W.drop tag.length = '(' :: (pid ++ ')' :: ':' :: m1) := by
        rw [hWdef]
        exact List.drop_left' rfl
      have hfi2 : findIdxA (· == ')') ('(' :: (pid ++ ')' :: ':' :: m1)) =
          some ('(' :: pid).length := by
        rw [show ('(' : Char) :: (pid ++ ')' :: ':' :: m1) =
            ('(' :: pid) ++ ')' :: ':' :: m1 from by simp]
        refine findIdxA_append ?_ (by decide) _
        intro x hx
        rw [beq_eq_false_iff_ne]
        rcases List.mem_cons.1 hx with rfl | h
        · decide
        · exact fun he => hpidp (by rw [← he]; exact h)
      simp only [pyFindFrom, hdropW, hfi2, List.length_cons]
    rw [hpe]
    rw [if_pos (show ((tag.length + (pid.length + 1) : Nat) : Int) ≠ -1 from
      by omega)]
    simp only [Int.toNat_ofNat]
    have hslice : pySlice W (tag.length + 1) (tag.length + (pid.length + 1)) =
        pid := by
      rw [pySlice, hW2]
      rw [List.take_left' (show (tag ++ '(' :: pid).length =
          tag.length + (pid.length + 1) from by
        simp only [List.length_append, List.length_cons])]
      rw [show tag ++ '(' :: pid = (tag ++ ['(']) ++ pid from by simp]
      exact List.drop_left' (by
        simp only [List.length_append, List.length_cons, List.length_nil])
    rw [hslice]
    have hms : pyFindFrom W ':' (tag.length + (pid.length + 1)) =
        ((tag.length + (pid.length + 1) + 1 : Nat) : Int) := by
      have hdropW2 : W.drop (tag.length + (pid.length + 1)) =
          ')' :: ':' :: m1 := by
        rw [hW2]
        exact List.drop_left' (by
          simp only [List.length_append, List.length_cons])
      have hfi3 : findIdxA (· == ':') (')' :: ':' :: m1) = some 1 := rfl
      simp only [pyFindFrom, hdropW2, hfi3]
    rw [hms]
    rw [if_pos (show ((tag.length + (pid.length + 1) + 1 : Nat) : Int) ≠ -1
      from by omega)]
    simp only [Int.toNat_ofNat]
    have hdropMsg : W.drop (tag.length + (pid.length + 1) + 1 + 1) = m1 := by
      rw [hWdef, show tag ++ '(' :: (pid ++ ')' :: ':' :: m1) =
          (tag ++ '(' :: (pid ++ [')', ':'])) ++ m1 from by simp]
      exact List.drop_left' (by
        simp only [List.length_append, List.length_cons, List.length_nil]
        omega)
    rw [hdropMsg]
    have htk : W.take tag.length = tag := by
      rw [hWdef]
      exact List.take_left' rfl
    rw [htk, hm1, pyStrip_pyRstrip]
  · intro line h
    rw [parse_log_line, if_pos h]

/-- Closed instance of `parse_log_line_spec` on the example line from the
source comments. -/
theorem parse_log_line_spec_witness :
    parse_log_line
        ("02-05 12:34:52.089".toList ++ ' ' :: 'W' :: '/' ::
          ("libperfmgr".toList ++ '(' ::
            (" 1234".toList ++ ')' :: ':' :: " Failed to write".toList)))
      = some ⟨pyStrip "02-05 12:34:52.089".toList, pyStrip " 1234".toList, [],
          ['W'], pyStrip "libperfmgr".toList,
          pyStrip " Failed to write".toList⟩ :=
  parse_log_line_spec.1 "02-05 12:34:52.089".toList 'W' "libperfmgr".toList
    " 1234".toList " Failed to write".toList (by decide) (by decide)
    (by decide) (by decide) (by decide) (by decide)

end ADBM
